import Mathlib

/-
Shallow embedding of the versioned dictionary document model of the fuck-db
backend (apps/backend/api/v1/versions.py, tables.py, models/dictionary.py).

The relational version index (the dictionary_versions table, filtered to a
single project, as every handler filters by project_id) is a list of
VersionRecord; the document store (the mongodb dictionaries collection) is an
association list from the store-generated id to the document.  Machine-level
concerns (HTTP plumbing, authentication, the ownership gate) are outside the
embedded core, exactly as every handler performs them before the version
logic runs.
-/

namespace FuckDB

/-- Model of a dynamically typed Python value, used for the fields the code
treats as opaque dynamic data (erd, metadata) and for the dynamic reads the
single-table endpoint performs on the schemas field. -/
inductive PyVal where
  | pnone
  | pbool (b : Bool)
  | pint (n : Int)
  | pstr (s : String)
  | plist (elems : List PyVal)
  | pdict (entries : List (String × PyVal))

/-- Runtime errors of the dynamic reads: attribute access on a value without
that attribute, and iteration over a non-iterable. -/
inductive PyErr where
  | attributeError
  | typeError
deriving DecidableEq

/-- Python dict.get with an explicit default; on any non-dict receiver the
attribute lookup of get itself fails with AttributeError (in particular on
strings and lists). -/
def pyGet (v : PyVal) (key : String) (dflt : PyVal) : Except PyErr PyVal :=
  match v with
  | PyVal.pdict entries =>
    match entries.find? (fun kv => kv.fst == key) with
    | some kv => Except.ok kv.snd
    | Option.none => Except.ok dflt
  | _ => Except.error PyErr.attributeError

/-- Python iteration: a dict yields its keys (strings, in insertion order), a
list yields its elements, a string yields its characters; other values are
not iterable. -/
def pyIterate : PyVal → Except PyErr (List PyVal)
  | PyVal.pdict entries => Except.ok (entries.map (fun kv => PyVal.pstr kv.fst))
  | PyVal.plist xs => Except.ok xs
  | PyVal.pstr s => Except.ok (s.toList.map (fun c => PyVal.pstr c.toString))
  | _ => Except.error PyErr.typeError

/-- Python equality of a dynamic value against a string: only a string with
the same characters compares equal; values of other types compare unequal
rather than raising. -/
def pyEqStr (v : PyVal) (s : String) : Bool :=
  match v with
  | PyVal.pstr t => t == s
  | _ => false

/-- The pydantic Column model (models/dictionary.py).  The ColumnKey enum is
serialized through use_enum_values, so the key field carries one of the
strings PK, FK, UK, IX or the empty string.  Optional fields the sources
never set (precision, scale, foreign keys, ui metadata) are omitted. -/
structure MColumn where
  name : String
  data_type : String
  key : String := ""
  nullable : Bool := true
  default_value : Option String := Option.none
  description : Option String := Option.none
  length : Option Nat := Option.none
  is_unique : Bool := false
  is_indexed : Bool := false
deriving DecidableEq

/-- The stored column shape produced by model_dump with by_alias and
exclude_none: data_type is serialized under the alias type, and the computed
fields isPK and isFK are included. -/
structure SColumn where
  name : String
  type : String
  key : String
  nullable : Bool
  default_value : Option String
  description : Option String
  length : Option Nat
  is_unique : Bool
  is_indexed : Bool
  isPK : Bool
  isFK : Bool
deriving DecidableEq

/-- model_dump of a Column: the computed fields are pure functions of key. -/
def serializeColumn (c : MColumn) : SColumn :=
  { name := c.name, type := c.data_type, key := c.key, nullable := c.nullable,
    default_value := c.default_value, description := c.description,
    length := c.length, is_unique := c.is_unique, is_indexed := c.is_indexed,
    isPK := c.key == "PK", isFK := c.key == "FK" }

/-- The pydantic Table model; table_type is serialized through
use_enum_values, so it is carried as one of the TableType strings. -/
structure MTable where
  name : String
  schema_name : String := "public"
  table_type : String := "dimension"
  description : Option String := Option.none
  columns : List MColumn := []
deriving DecidableEq

/-- The stored table shape produced by model_dump with by_alias: table_type
is serialized under the alias type; schema_name has no alias. -/
structure STable where
  name : String
  schema_name : String
  type : String
  description : Option String
  columns : List SColumn
deriving DecidableEq

/-- model_dump of a Table. -/
def serializeTable (t : MTable) : STable :=
  { name := t.name, schema_name := t.schema_name, type := t.table_type,
    description := t.description, columns := t.columns.map serializeColumn }

/-- The pydantic Schema model: a named group of tables. -/
structure MSchema where
  name : String
  description : Option String := Option.none
  tables : List MTable := []
deriving DecidableEq

/-- A stored relationship record: the fields the cascade logic reads through
rel.get on the stored dictionaries. -/
structure Rel where
  id : String
  source_table : String
  source_column : String
  target_table : String
  target_column : String
deriving DecidableEq

/-- The legacy stored shape of one schema object: a dict with a name and a
list of table dicts, as the single-table endpoint expects to read. -/
structure LegacySchema where
  name : String
  tables : List STable
deriving DecidableEq

/-- The two shapes the schemas field of a stored dictionary document takes:
the canonical dict shape with a tables key and a relationships key, which
create_version always writes, and the legacy shape of a list of schema
objects. -/
inductive SchemasValue where
  | dictShape (tables : List STable) (relationships : List Rel)
  | listShape (schemas : List LegacySchema)
deriving DecidableEq

/-- A dictionary document as stored in the document store.  The erd and
metadata fields are dynamic values the version logic copies or defaults but
never inspects. -/
structure Doc where
  projectId : String
  version : Nat
  name : String
  description : Option String
  schemas : SchemasValue
  relationships : List Rel
  erd : PyVal
  metadata : PyVal

/-- One row of the dictionary_versions table, projected to one project. -/
structure VersionRecord where
  id : String
  project_id : String
  version : Nat
  mongo_id : String
  name : String
  description : Option String
  is_latest : Bool
deriving DecidableEq

/-- The two stores as seen by one project: its relational version rows and
the document collection keyed by the store-generated id. -/
structure ProjState where
  records : List VersionRecord
  docs : List (String × Doc)

/-- find_one on the document collection by id. -/
def lookupDoc (docs : List (String × Doc)) (mid : String) : Option Doc :=
  (docs.find? (fun p => p.fst == mid)).map (fun p => p.snd)

/-- The error taxonomy of utils/errors.py, restricted to the constructors the
embedded operations raise.  storeError stands for the relational client
raising on a single-row query that matched no row. -/
inductive Err where
  | notFound
  | validationError
  | conflictError
  | databaseError
  | storeError
deriving DecidableEq

/-- Greatest element of a list of naturals, 0 for the empty list; mirrors
ordering the rows by version descending and reading the first row. -/
def listMaxNat : List Nat → Nat
  | [] => 0
  | x :: xs => Nat.max x (listMaxNat xs)

/-- create_version, versions.py lines 169-178: order the rows of the project
by version descending, take the first, add one; default 1 when none exist. -/
def nextVersionOf (records : List VersionRecord) : Nat :=
  if records.isEmpty then 1
  else listMaxNat (records.map (fun r => r.version)) + 1

/-- create_initial_schema, versions.py lines 75-81: the id column of the
sample table. -/
def sample_id_column : MColumn :=
  { name := "id", data_type := "bigint", key := "PK", nullable := false,
    description := some "Primary key" }

/-- create_initial_schema, versions.py lines 82-88: the name column of the
sample table. -/
def sample_name_column : MColumn :=
  { name := "name", data_type := "varchar", length := some 255,
    nullable := true, description := some "Name field" }

/-- create_initial_schema, versions.py lines 89-95: the created_at column of
the sample table. -/
def sample_created_at_column : MColumn :=
  { name := "created_at", data_type := "timestamp", nullable := false,
    default_value := some "CURRENT_TIMESTAMP",
    description := some "Record creation timestamp" }

/-- create_initial_schema, versions.py lines 66-105: the default public
schema with the sample table. -/
def sample_table : MTable :=
  { name := "sample_table", schema_name := "public", table_type := "dimension",
    description := some "Sample table - you can modify or delete this",
    columns :=
      [sample_id_column, sample_name_column, sample_created_at_column] }

/-- create_initial_schema returns a single schema named public holding the
sample table. -/
def create_initial_schema : List MSchema :=
  [ { name := "public", description := some "Default public schema",
      tables := [sample_table] } ]

/-- versions.py lines 205-223: convert a list of Schema objects to the
canonical stored dict shape by flattening every schema into one table list.
At this point of create_version the local always holds a list of Schema
objects (the request schemas or the synthesized default), never a dict: the
base document schemas are bound on line 201 to a separate local that is
never read again, so the dict branch of the source conditional is
unreachable and only the nonempty-list test remains. -/
def schemasToDict (schemas : List MSchema) : SchemasValue :=
  if schemas.isEmpty then SchemasValue.dictShape [] []
  else
    SchemasValue.dictShape
      ((schemas.map (fun s => s.tables.map serializeTable)).flatten) []

/-- The default erd value written when no base version supplies one. -/
def defaultErd : PyVal :=
  PyVal.pdict [("nodes", PyVal.plist []), ("edges", PyVal.plist [])]

/-- The body of a create-version request (models/dictionary.py,
CreateVersionRequest); schemas defaults to the empty list, which is falsy. -/
structure CreateVersionRequest where
  name : String
  description : Option String := Option.none
  base_version : Option Nat := Option.none
  schemas : List MSchema := []

/-- create_version lines 188-203: the content taken over from the base
version when one is requested.  The single-row lookup raises when that
version does not exist; when its document is found, its relationships and
erd flow into the new document, while the source binds its schemas on line
201 to a local (schemas_data) that is never read again, which is why no
schemas component is returned here. -/
def baseContent (st : ProjState) (req : CreateVersionRequest) :
    Except Err (List Rel × PyVal) :=
  match req.base_version with
  | Option.none => Except.ok ([], defaultErd)
  | some bv =>
    match st.records.find? (fun r => r.version == bv) with
    | Option.none => Except.error Err.storeError
    | some row =>
      match lookupDoc st.docs row.mongo_id with
      | Option.none => Except.ok ([], defaultErd)
      | some baseDoc => Except.ok (baseDoc.relationships, baseDoc.erd)

/-- create_version, versions.py lines 147-277, after the ownership gate.
newMongoId is the id the document store generates for the inserted document
and newRowId the generated uuid of the relational row.  Content resolution:
the request schemas, or the synthesized default when they are empty, are
converted to the stored dict shape, and the base content (relationships and
erd only) overrides the defaults when present.  Then the document is
inserted, every existing row is flipped to is_latest false, and the new row
is inserted with is_latest true. -/
def create_version (st : ProjState) (project_id : String)
    (req : CreateVersionRequest) (newMongoId newRowId : String) :
    Except Err (ProjState × VersionRecord × Doc) :=
  let next_version := nextVersionOf st.records
  let schemas := if req.schemas.isEmpty then create_initial_schema else req.schemas
  match baseContent st req with
  | Except.error e => Except.error e
  | Except.ok (relationships, erd) =>
    let schemas_dict := schemasToDict schemas
    let doc : Doc :=
      { projectId := project_id, version := next_version, name := req.name,
        description := req.description, schemas := schemas_dict,
        relationships := relationships, erd := erd,
        metadata := PyVal.pdict [] }
    let newRec : VersionRecord :=
      { id := newRowId, project_id := project_id, version := next_version,
        mongo_id := newMongoId, name := req.name,
        description := req.description, is_latest := true }
    Except.ok
      ( { records :=
            st.records.map (fun r => { r with is_latest := false }) ++ [newRec],
          docs := st.docs ++ [(newMongoId, doc)] },
        newRec, doc )

/-- Result of get_latest_version: when no row has is_latest set the endpoint
succeeds with both version and dictionary null; otherwise it succeeds with
the row and whatever the document lookup returned, including nothing. -/
inductive GetLatestResult where
  | emptyOk
  | ok (record : VersionRecord) (dictionary : Option Doc)

/-- get_latest_version, versions.py lines 289-353: select the rows with
is_latest set, limited to one row, then look the document up by the stored
id; the response is a success in every case. -/
def get_latest_version (st : ProjState) : GetLatestResult :=
  match st.records.find? (fun r => r.is_latest) with
  | Option.none => GetLatestResult.emptyOk
  | some row => GetLatestResult.ok row (lookupDoc st.docs row.mongo_id)

/-- The rows that survive deleting the given version number: the relational
delete filters on the version column. -/
def remainingAfter (records : List VersionRecord) (v : Nat) :
    List VersionRecord :=
  records.filter (fun r => r.version != v)

/-- Set is_latest on the rows whose version equals the promoted number, as
the relational update filtered on the version column does. -/
def setLatestOn (m : Nat) (r : VersionRecord) : VersionRecord :=
  if r.version == m then { r with is_latest := true } else r

/-- delete_version, versions.py lines 516-588: reject when the project has
no rows (notFound) or exactly one row (validationError); reject when the
requested number matches no row; when the deleted row holds is_latest, set
is_latest on the row with the greatest remaining version number (the first
row of the remaining rows sorted by version descending) when any remain;
then delete the document by its stored id and delete the relational rows of
that version number. -/
def delete_version (st : ProjState) (version : Nat) : Except Err ProjState :=
  if st.records.isEmpty then Except.error Err.notFound
  else if st.records.length == 1 then Except.error Err.validationError
  else
    match st.records.find? (fun r => r.version == version) with
    | Option.none => Except.error Err.notFound
    | some vdel =>
      let remaining := remainingAfter st.records version
      let promoted :=
        if vdel.is_latest then
          if remaining.isEmpty then st.records
          else
            st.records.map
              (setLatestOn (listMaxNat (remaining.map (fun r => r.version))))
        else st.records
      Except.ok
        { records := remainingAfter promoted version,
          docs := st.docs.eraseP (fun p => p.fst == vdel.mongo_id) }

/-- The body of an update-version request, restricted to the relational
fields; the document-side patches touch only the document store. -/
structure UpdateVersionRequest where
  name : Option String := Option.none
  description : Option String := Option.none

/-- Python truthiness of an optional string: absent and empty both count as
false. -/
def strTruthy : Option String → Bool
  | Option.none => false
  | some s => !s.isEmpty

/-- update_version, versions.py lines 412-513, restricted to the relational
side: the single-row lookup of the version (notFound when absent), then,
when the name or the description patch is truthy, an update of exactly those
two columns on the row with the matching id. -/
def update_version_records (records : List VersionRecord) (version : Nat)
    (p : UpdateVersionRequest) : Except Err (List VersionRecord) :=
  match records.find? (fun r => r.version == version) with
  | Option.none => Except.error Err.notFound
  | some row =>
    if strTruthy p.name || strTruthy p.description then
      Except.ok
        (records.map (fun r =>
          if r.id == row.id then
            { r with
              name := if strTruthy p.name then p.name.getD r.name else r.name,
              description :=
                if strTruthy p.description then p.description
                else r.description }
          else r))
    else Except.ok records

/-- Split a list at the first element satisfying the test, returning the
part before it, the element, and the part after it; mirrors the source loops
that scan with enumerate and break at the first match. -/
def splitFirst (p : α → Bool) : List α → Option (List α × α × List α)
  | [] => Option.none
  | x :: xs =>
    if p x then some ([], x, xs)
    else
      match splitFirst p xs with
      | Option.none => Option.none
      | some (pre, y, post) => some (x :: pre, y, post)

/-- delete_table, tables.py lines 324-412, on one dictionary document: the
schemas field must carry the canonical dict shape holding a tables key, else
the table is reported notFound; the first table matching name and
schema_name is removed, and every relationship whose source_table or
target_table equals the table name is pruned, regardless of schema. -/
def delete_table (doc : Doc) (tname sname : String) : Except Err Doc :=
  match doc.schemas with
  | SchemasValue.listShape _ => Except.error Err.notFound
  | SchemasValue.dictShape tables rels =>
    match splitFirst (fun tb => tb.name == tname && tb.schema_name == sname)
        tables with
    | Option.none => Except.error Err.notFound
    | some (pre, _t, post) =>
      Except.ok
        { doc with
          schemas := SchemasValue.dictShape (pre ++ post) rels,
          relationships :=
            doc.relationships.filter (fun rel =>
              rel.source_table != tname && rel.target_table != tname) }

/-- delete_column, tables.py lines 415-530, on one dictionary document: the
schemas field must carry the canonical dict shape, else notFound; the first
table matching name and schema_name is scanned for the first column with the
requested name (notFound when either is absent); deleting the last remaining
column is rejected, as is deleting a primary-key column (key PK or the isPK
flag) when it is the only one; otherwise exactly that column is removed and
every relationship matching the table and column pair on its source or its
target side is pruned. -/
def delete_column (doc : Doc) (tname sname cname : String) : Except Err Doc :=
  match doc.schemas with
  | SchemasValue.listShape _ => Except.error Err.notFound
  | SchemasValue.dictShape tables rels =>
    match splitFirst (fun tb => tb.name == tname && tb.schema_name == sname)
        tables with
    | Option.none => Except.error Err.notFound
    | some (pre, t, post) =>
      match splitFirst (fun col => col.name == cname) t.columns with
      | Option.none => Except.error Err.notFound
      | some (cpre, c, cpost) =>
        if t.columns.length == 1 then Except.error Err.validationError
        else if (c.key == "PK" || c.isPK) &&
            (t.columns.countP (fun col => col.key == "PK" || col.isPK) == 1)
        then Except.error Err.validationError
        else
          Except.ok
            { doc with
              schemas :=
                SchemasValue.dictShape
                  (pre ++ ({ t with columns := cpre ++ cpost } :: post)) rels,
              relationships :=
                doc.relationships.filter (fun rel =>
                  !((rel.source_table == tname && rel.source_column == cname) ||
                    (rel.target_table == tname && rel.target_column == cname))) }

/-- Serialize a stored relationship back to a dynamic dict. -/
def Rel.toPy (r : Rel) : PyVal :=
  PyVal.pdict
    [("id", PyVal.pstr r.id), ("source_table", PyVal.pstr r.source_table),
     ("source_column", PyVal.pstr r.source_column),
     ("target_table", PyVal.pstr r.target_table),
     ("target_column", PyVal.pstr r.target_column)]

/-- Dict entry of an optional string field under exclude_none. -/
def optStrEntry (k : String) (v : Option String) : List (String × PyVal) :=
  match v with
  | Option.none => []
  | some s => [(k, PyVal.pstr s)]

/-- Dict entry of an optional number field under exclude_none. -/
def optNatEntry (k : String) (v : Option Nat) : List (String × PyVal) :=
  match v with
  | Option.none => []
  | some n => [(k, PyVal.pint (Int.ofNat n))]

/-- Serialize a stored column to the dynamic dict the document store holds. -/
def SColumn.toPy (c : SColumn) : PyVal :=
  PyVal.pdict
    ([("name", PyVal.pstr c.name), ("type", PyVal.pstr c.type),
      ("key", PyVal.pstr c.key), ("nullable", PyVal.pbool c.nullable)] ++
      optStrEntry "default_value" c.default_value ++
      optStrEntry "description" c.description ++
      optNatEntry "length" c.length ++
      [("is_unique", PyVal.pbool c.is_unique),
       ("is_indexed", PyVal.pbool c.is_indexed),
       ("isPK", PyVal.pbool c.isPK), ("isFK", PyVal.pbool c.isFK)])

/-- Serialize a stored table to the dynamic dict the document store holds. -/
def STable.toPy (t : STable) : PyVal :=
  PyVal.pdict
    ([("name", PyVal.pstr t.name),
      ("schema_name", PyVal.pstr t.schema_name),
      ("type", PyVal.pstr t.type)] ++
      optStrEntry "description" t.description ++
      [("columns", PyVal.plist (t.columns.map SColumn.toPy))])

/-- Serialize a legacy schema object to its dynamic dict. -/
def LegacySchema.toPy (s : LegacySchema) : PyVal :=
  PyVal.pdict
    [("name", PyVal.pstr s.name),
     ("tables", PyVal.plist (s.tables.map STable.toPy))]

/-- The dynamic value actually stored in the schemas field, in either
shape. -/
def SchemasValue.toPy : SchemasValue → PyVal
  | SchemasValue.dictShape tables rels =>
    PyVal.pdict
      [("tables", PyVal.plist (tables.map STable.toPy)),
       ("relationships", PyVal.plist (rels.map Rel.toPy))]
  | SchemasValue.listShape ss => PyVal.plist (ss.map LegacySchema.toPy)

/-- Outcome of the single-table endpoint body: the table found, the
not-found rejection after the scan, or a runtime error of a dynamic read
(the generic handler turns the latter into a 500 response). -/
inductive GetTableOutcome where
  | found (table : PyVal)
  | notFound
  | pyError (e : PyErr)

/-- Inner scan of get_table: the first table dict whose name entry equals
the requested name, with a break. -/
def find_table_in (tables : List PyVal) (table_name : String) :
    Except PyErr (Option PyVal) :=
  match tables with
  | [] => Except.ok Option.none
  | t :: rest =>
    match pyGet t "name" PyVal.pnone with
    | Except.error e => Except.error e
    | Except.ok nv =>
      if pyEqStr nv table_name then Except.ok (some t)
      else find_table_in rest table_name

/-- Outer scan of get_table: the first schema object whose name entry equals
the requested schema name is scanned for the table, and the outer loop
breaks after it whether or not the table was found. -/
def find_table_loop (schemas : List PyVal) (table_name schema_name : String) :
    Except PyErr (Option PyVal) :=
  match schemas with
  | [] => Except.ok Option.none
  | s :: rest =>
    match pyGet s "name" PyVal.pnone with
    | Except.error e => Except.error e
    | Except.ok nv =>
      if pyEqStr nv schema_name then
        match pyGet s "tables" (PyVal.plist []) with
        | Except.error e => Except.error e
        | Except.ok tv =>
          match pyIterate tv with
          | Except.error e => Except.error e
          | Except.ok ts => find_table_in ts table_name
      else find_table_loop rest table_name schema_name

/-- get_table, tables.py lines 533-596, on the stored schemas value: iterate
the value, read the name entry of each element, and search the matching
schema object for the table; when the scan completes without a table the
endpoint rejects with notFound. -/
def get_table_lookup (schemas : PyVal) (table_name schema_name : String) :
    GetTableOutcome :=
  match pyIterate schemas with
  | Except.error e => GetTableOutcome.pyError e
  | Except.ok ss =>
    match find_table_loop ss table_name schema_name with
    | Except.error e => GetTableOutcome.pyError e
    | Except.ok Option.none => GetTableOutcome.notFound
    | Except.ok (some t) => GetTableOutcome.found t

/-- Number of rows of one project carrying is_latest. -/
def countLatest (records : List VersionRecord) : Nat :=
  records.countP (fun r => r.is_latest)

/-- The version numbers of one project are pairwise distinct. -/
def VersionsNodup (records : List VersionRecord) : Prop :=
  (records.map (fun r => r.version)).Nodup

instance (records : List VersionRecord) : Decidable (VersionsNodup records) :=
  List.nodupDecidable _

/-- Tag test used to state that an outcome is not the notFound rejection. -/
def GetTableOutcome.isNotFound : GetTableOutcome → Bool
  | GetTableOutcome.notFound => true
  | _ => false

/-- A base document holding content that differs from the synthesized
default schema, used to exercise the copy-from-base path. -/
def forkBaseDoc : Doc :=
  { projectId := "p1", version := 1, name := "v1",
    description := Option.none,
    schemas := SchemasValue.dictShape
      [ { name := "users", schema_name := "public", type := "dimension",
          description := Option.none,
          columns :=
            [ { name := "user_id", type := "bigint", key := "PK",
                nullable := false, default_value := Option.none,
                description := Option.none, length := Option.none,
                is_unique := false, is_indexed := false,
                isPK := true, isFK := false } ] } ] [],
    relationships :=
      [ { id := "r1", source_table := "users", source_column := "user_id",
          target_table := "orders", target_column := "user_id" } ],
    erd := PyVal.pdict
      [("nodes", PyVal.plist [PyVal.pstr "users"]),
       ("edges", PyVal.plist [])],
    metadata := PyVal.pdict [] }

/-- A project holding exactly the base version above. -/
def forkBaseState : ProjState :=
  { records :=
      [ { id := "row1", project_id := "p1", version := 1, mongo_id := "m1",
          name := "v1", description := Option.none, is_latest := true } ],
    docs := [("m1", forkBaseDoc)] }

/-- A create request forking from version 1 without explicit schemas. -/
def forkReq : CreateVersionRequest :=
  { name := "v2", base_version := some 1 }

/-- A project whose single latest row points at a document id that is absent
from the document store. -/
def orphanRecord : VersionRecord :=
  { id := "rowx", project_id := "p1", version := 1, mongo_id := "mx",
    name := "v1", description := Option.none, is_latest := true }

/-- The state holding the orphaned row and an empty document store. -/
def orphanState : ProjState :=
  { records := [orphanRecord], docs := [] }

/-- Row maker for the concrete instances below. -/
def demoRecord (i : String) (v : Nat) (mid : String) (b : Bool) :
    VersionRecord :=
  { id := i, project_id := "p1", version := v, mongo_id := mid, name := "n",
    description := Option.none, is_latest := b }

/-- A project with three versions, version 2 latest. -/
def demoState : ProjState :=
  { records := [demoRecord "a" 1 "m1" false, demoRecord "b" 2 "m2" true,
                demoRecord "c" 3 "m3" false],
    docs := [] }

/-- A project with a single version. -/
def soloState : ProjState :=
  { records := [demoRecord "a" 1 "m1" true], docs := [] }

/-- A plain create request without base version or schemas. -/
def demoReq : CreateVersionRequest := { name := "v4" }

/-- A relational patch renaming a version. -/
def demoPatch : UpdateVersionRequest := { name := some "renamed" }

/-- The result of creating a fourth version on the demo project. -/
def demoCreate : Except Err (ProjState × VersionRecord × Doc) :=
  create_version demoState "p1" demoReq "m4" "row4"

/-- The state after the demo create. -/
def demoCreateState : ProjState :=
  match demoCreate with
  | Except.ok (s, _, _) => s
  | Except.error _ => demoState

/-- The row inserted by the demo create. -/
def demoCreateRec : VersionRecord :=
  match demoCreate with
  | Except.ok (_, r, _) => r
  | Except.error _ => demoRecord "a" 1 "m1" false

/-- The document written by the demo create. -/
def demoCreateDoc : Doc :=
  match demoCreate with
  | Except.ok (_, _, d) => d
  | Except.error _ => forkBaseDoc

/-- The state after deleting the latest version of the demo project. -/
def demoDeleteState : ProjState :=
  match delete_version demoState 2 with
  | Except.ok s => s
  | Except.error _ => demoState

/-- The rows after the demo relational rename of version 1. -/
def demoUpdateRecs : List VersionRecord :=
  match update_version_records demoState.records 1 demoPatch with
  | Except.ok l => l
  | Except.error _ => []

/-- A document holding the serialized sample table and two relationships
touching it, one on the name column and one on the id column. -/
def demoDoc : Doc :=
  { projectId := "p1", version := 1, name := "v1",
    description := Option.none,
    schemas := SchemasValue.dictShape [serializeTable sample_table] [],
    relationships :=
      [ { id := "r1", source_table := "sample_table",
          source_column := "name", target_table := "other",
          target_column := "x" },
        { id := "r2", source_table := "zzz", source_column := "c",
          target_table := "sample_table", target_column := "id" },
        { id := "r3", source_table := "zzz", source_column := "c",
          target_table := "other", target_column := "x" } ],
    erd := defaultErd, metadata := PyVal.pdict [] }

/-- The document after deleting the sample table from the demo document. -/
def demoDeleteTableDoc : Doc :=
  match delete_table demoDoc "sample_table" "public" with
  | Except.ok d => d
  | Except.error _ => demoDoc

/-- The document after deleting the name column from the demo document. -/
def demoDeleteColumnDoc : Doc :=
  match delete_column demoDoc "sample_table" "public" "name" with
  | Except.ok d => d
  | Except.error _ => demoDoc

/-! Helper lemmas about the list machinery of the embedding. -/

lemma listMaxNat_cons (x : Nat) (t : List Nat) :
    listMaxNat (x :: t) = Nat.max x (listMaxNat t) := rfl

lemma listMaxNat_mem (xs : List Nat) (h : xs ≠ []) : listMaxNat xs ∈ xs := by
  induction xs with
  | nil => exact absurd rfl h
  | cons x t ih =>
    cases t with
    | nil => simp [listMaxNat]
    | cons y t2 =>
      rcases Nat.le_total (listMaxNat (y :: t2)) x with hm | hm
      · have hx : listMaxNat (x :: y :: t2) = x := Nat.max_eq_left hm
        rw [hx]
        exact List.mem_cons_self _ _
      · have hx : listMaxNat (x :: y :: t2) = listMaxNat (y :: t2) :=
          Nat.max_eq_right hm
        rw [hx]
        exact List.mem_cons_of_mem x (ih (by simp))

lemma le_listMaxNat (xs : List Nat) (a : Nat) (h : a ∈ xs) :
    a ≤ listMaxNat xs := by
  induction xs with
  | nil => cases h
  | cons x t ih =>
    rw [listMaxNat_cons]
    rcases List.mem_cons.mp h with rfl | hmem
    · exact Nat.le_max_left _ _
    · exact le_trans (ih hmem) (Nat.le_max_right _ _)

lemma setLatestOn_version (m : Nat) (r : VersionRecord) :
    (setLatestOn m r).version = r.version := by
  unfold setLatestOn; split <;> rfl

lemma setLatestOn_is_latest (m : Nat) (r : VersionRecord) :
    (setLatestOn m r).is_latest = (r.version == m || r.is_latest) := by
  unfold setLatestOn
  split
  · next hc => simp [hc]
  · next hc => simp [Bool.or_eq_true, hc]

lemma remainingAfter_map_setLatestOn (l : List VersionRecord) (m v : Nat) :
    remainingAfter (l.map (setLatestOn m)) v =
      (remainingAfter l v).map (setLatestOn m) := by
  induction l with
  | nil => rfl
  | cons a t ih =>
    simp only [remainingAfter] at ih ⊢
    simp only [List.map_cons, List.filter_cons, setLatestOn_version]
    cases h : (a.version != v) <;> simp [h, ih]

lemma splitFirst_eq {p : α → Bool} {l pre post : List α} {x : α}
    (h : splitFirst p l = some (pre, x, post)) :
    l = pre ++ x :: post ∧ p x = true := by
  induction l generalizing pre x post with
  | nil => exact absurd h (by simp [splitFirst])
  | cons a t ih =>
    by_cases ha : p a = true
    · simp only [splitFirst, ha, if_pos] at h
      obtain ⟨h1, h2, h3⟩ := by simpa using h
      subst h1; subst h2; subst h3
      exact ⟨rfl, ha⟩
    · simp only [splitFirst, ha, if_neg, Bool.false_eq_true,
        not_false_eq_true] at h
      cases ht : splitFirst p t with
      | none => rw [ht] at h; cases h
      | some trip =>
        obtain ⟨pre2, y, post2⟩ := trip
        rw [ht] at h
        obtain ⟨h1, h2, h3⟩ := by simpa using h
        obtain ⟨hp, heq⟩ := ih ht
        subst h2; subst h3; subst h1
        exact ⟨by simp [hp], heq⟩

lemma latest_filter_singleton (l : List VersionRecord)
    (hc : countLatest l = 1) :
    ∃ x, l.filter (fun r => r.is_latest) = [x] := by
  have h1 : (l.filter (fun r => r.is_latest)).length = 1 := by
    simpa [countLatest, List.countP_eq_length_filter] using hc
  exact List.length_eq_one.mp h1

lemma only_latest (l : List VersionRecord) (hc : countLatest l = 1)
    (x : VersionRecord) (hx : x ∈ l) (hlx : x.is_latest = true) :
    ∀ r ∈ l, r.is_latest = true → r = x := by
  obtain ⟨y, hy⟩ := latest_filter_singleton l hc
  have hxf : x ∈ l.filter (fun r => r.is_latest) :=
    List.mem_filter.mpr ⟨hx, hlx⟩
  intro r hr hlr
  have hrf : r ∈ l.filter (fun r => r.is_latest) :=
    List.mem_filter.mpr ⟨hr, hlr⟩
  rw [hy] at hxf hrf
  simp only [List.mem_singleton] at hxf hrf
  rw [hxf, hrf]

lemma version_inj (l : List VersionRecord) (hn : VersionsNodup l) :
    ∀ a ∈ l, ∀ b ∈ l, a.version = b.version → a = b := by
  intro a ha b hb h
  exact List.inj_on_of_nodup_map hn ha hb h

lemma find?_version_eq {l : List VersionRecord} {v : Nat} {vdel : VersionRecord}
    (hf : l.find? (fun r => r.version == v) = some vdel) :
    vdel ∈ l ∧ vdel.version = v := by
  refine ⟨List.mem_of_find?_eq_some hf, ?_⟩
  have := List.find?_some hf
  simpa using this

lemma remaining_not_latest (l : List VersionRecord) (v : Nat)
    (vdel : VersionRecord) (hc : countLatest l = 1)
    (hf : l.find? (fun r => r.version == v) = some vdel)
    (hl : vdel.is_latest = true) :
    ∀ r ∈ remainingAfter l v, r.is_latest = false := by
  intro r hr
  obtain ⟨hrmem, hrv⟩ :=
    List.mem_filter.mp (show r ∈ l.filter (fun x => x.version != v) from hr)
  obtain ⟨hvdelmem, hvdelv⟩ := find?_version_eq hf
  cases hb : r.is_latest with
  | false => rfl
  | true =>
    have heq := only_latest l hc vdel hvdelmem hl r hrmem hb
    rw [heq, hvdelv] at hrv
    simp at hrv

lemma remaining_nodup (l : List VersionRecord) (v : Nat)
    (hn : VersionsNodup l) : VersionsNodup (remainingAfter l v) := by
  unfold VersionsNodup remainingAfter at *
  exact hn.sublist (List.Sublist.map _ (List.filter_sublist l))

lemma remaining_ne_nil (l : List VersionRecord) (v : Nat)
    (hn : VersionsNodup l) (hlen : 2 ≤ l.length) :
    remainingAfter l v ≠ [] := by
  intro hnil
  have hall : ∀ r ∈ l, r.version = v := by
    intro r hr
    have := List.filter_eq_nil_iff.mp hnil r hr
    simpa using this
  match l, hlen with
  | a :: b :: t, _ =>
    have hav : a.version = v := hall a (by simp)
    have hbv : b.version = v := hall b (by simp)
    unfold VersionsNodup at hn
    rw [List.map_cons, List.map_cons, List.nodup_cons] at hn
    exact hn.1 (by rw [hav, ← hbv]; exact List.mem_cons_self _ _)

lemma countLatest_map_setLatestOn (l : List VersionRecord) (m : Nat)
    (hall : ∀ r ∈ l, r.is_latest = false)
    (hn : (l.map (fun r => r.version)).Nodup)
    (hm : m ∈ l.map (fun r => r.version)) :
    countLatest (l.map (setLatestOn m)) = 1 := by
  unfold countLatest
  rw [List.countP_map]
  have h1 : l.countP ((fun r => r.is_latest) ∘ setLatestOn m) =
      l.countP (fun r => r.version == m) := by
    apply List.countP_congr
    intro r hr
    simp only [Function.comp_apply, setLatestOn_is_latest, hall r hr,
      Bool.or_false]
  rw [h1]
  have h2 : l.countP (fun r => r.version == m) =
      (l.map (fun r => r.version)).count m := by
    rw [List.count_eq_countP, List.countP_map]
    rfl
  rw [h2]
  exact List.count_eq_one_of_mem hn hm

lemma promoted_mem_latest_iff (l : List VersionRecord) (m : Nat)
    (hall : ∀ r ∈ l, r.is_latest = false) :
    ∀ r ∈ l.map (setLatestOn m), (r.is_latest = true ↔ r.version = m) := by
  intro r hr
  obtain ⟨r0, hr0, hreq⟩ := List.mem_map.mp hr
  subst hreq
  rw [setLatestOn_is_latest, hall r0 hr0, Bool.or_false, setLatestOn_version]
  constructor
  · intro hb
    simpa using hb
  · intro hb
    simp [hb]

lemma remainingAfter_filter_latest (l : List VersionRecord) (v : Nat)
    (vdel : VersionRecord) (hc : countLatest l = 1) (hn : VersionsNodup l)
    (hf : l.find? (fun r => r.version == v) = some vdel)
    (hnl : vdel.is_latest = false) :
    (remainingAfter l v).filter (fun r => r.is_latest) =
      l.filter (fun r => r.is_latest) := by
  obtain ⟨hvdelmem, hvdelv⟩ := find?_version_eq hf
  unfold remainingAfter
  rw [List.filter_filter]
  apply List.filter_congr
  intro r hr
  cases hb : r.is_latest with
  | false => simp
  | true =>
    have hrv : r.version ≠ v := by
      intro hcontra
      have : r = vdel :=
        version_inj l hn r hr vdel hvdelmem (by rw [hcontra, hvdelv])
      rw [this, hnl] at hb
      cases hb
    simp [hrv]

/-- Everything create_version determines about its successful result: the
inserted row carries the computed next version and is_latest, every prior
row is flipped, and the document lands in the store under the new id. -/
lemma create_version_ok_inv (st : ProjState) (pid : String)
    (req : CreateVersionRequest) (mid rid : String)
    (st2 : ProjState) (rec : VersionRecord) (doc : Doc)
    (h : create_version st pid req mid rid = Except.ok (st2, rec, doc)) :
    rec = { id := rid, project_id := pid,
            version := nextVersionOf st.records, mongo_id := mid,
            name := req.name, description := req.description,
            is_latest := true }
    ∧ st2.records =
        st.records.map (fun r => { r with is_latest := false }) ++ [rec]
    ∧ st2.docs = st.docs ++ [(mid, doc)] := by
  unfold create_version at h
  cases hb : baseContent st req with
  | error e =>
    simp only [hb] at h
    cases h
  | ok pair =>
    obtain ⟨relationships, erd⟩ := pair
    simp only [hb, Except.ok.injEq, Prod.mk.injEq] at h
    obtain ⟨h1, h2, h3⟩ := h
    refine ⟨h2.symm, ?_, ?_⟩
    · rw [← h1, ← h2]
    · rw [← h1, ← h3]

/-- Everything delete_version determines about its successful result. -/
lemma delete_version_ok_inv (st : ProjState) (v : Nat) (st2 : ProjState)
    (h : delete_version st v = Except.ok st2) :
    2 ≤ st.records.length ∧
    ∃ vdel, st.records.find? (fun r => r.version == v) = some vdel ∧
      st2.records = remainingAfter
        (if vdel.is_latest then
          (if (remainingAfter st.records v).isEmpty then st.records
           else st.records.map
             (setLatestOn
               (listMaxNat
                 ((remainingAfter st.records v).map (fun r => r.version)))))
         else st.records) v := by
  unfold delete_version at h
  split at h
  · cases h
  · split at h
    · cases h
    · next hemp hone =>
      cases hfind : st.records.find? (fun r => r.version == v) with
      | none => rw [hfind] at h; cases h
      | some vdel =>
        rw [hfind] at h
        simp only [Except.ok.injEq] at h
        constructor
        · have h0 : st.records.length ≠ 0 := by
            intro hz
            exact hemp (by rw [List.isEmpty_iff_length_eq_zero]; exact hz)
          have h1 : st.records.length ≠ 1 := by
            intro ho
            exact hone (by simp [ho])
          omega
        · exact ⟨vdel, rfl, by rw [← h]⟩

/-! Claim theorems. -/

/-- C7: create_version invoked with no base_version and no schemas
synthesizes the default schema: the stored document carries exactly one
table, the serialized sample_table under the schema named public, with
exactly three columns, id (bigint, key PK, not nullable), name (varchar of
length 255, nullable) and created_at (timestamp, not nullable, default
value CURRENT_TIMESTAMP), and create_initial_schema is one schema named
public holding that one table. -/
theorem create_version_default_schema (st : ProjState) (pid nm : String)
    (ds : Option String) (mid rid : String) :
    (∃ st2 rec,
      create_version st pid { name := nm, description := ds } mid rid =
        Except.ok (st2, rec,
          { projectId := pid, version := nextVersionOf st.records,
            name := nm, description := ds,
            schemas :=
              SchemasValue.dictShape [serializeTable sample_table] [],
            relationships := [], erd := defaultErd,
            metadata := PyVal.pdict [] }))
    ∧ create_initial_schema =
        [{ name := "public", description := some "Default public schema",
           tables := [sample_table] }]
    ∧ sample_table.name = "sample_table"
    ∧ sample_table.schema_name = "public"
    ∧ sample_table.columns.map (fun c => c.name) =
        ["id", "name", "created_at"]
    ∧ sample_table.columns.map (fun c => c.data_type) =
        ["bigint", "varchar", "timestamp"]
    ∧ sample_table.columns.map (fun c => c.key) = ["PK", "", ""]
    ∧ sample_table.columns.map (fun c => c.nullable) = [false, true, false]
    ∧ sample_table.columns.map (fun c => c.length) =
        [Option.none, some 255, Option.none]
    ∧ sample_table.columns.map (fun c => c.default_value) =
        [Option.none, Option.none, some "CURRENT_TIMESTAMP"] := by
  refine ⟨⟨_, _, rfl⟩, rfl, rfl, rfl, rfl, rfl, rfl, rfl, rfl, rfl⟩

/-- C10 counterexample: on the canonical dict shape that create_version
always writes, and with a table of that name present in the stored table
list under the requested schema, the single-table lookup does not reject
with notFound as the claim states: it raises AttributeError, because
iterating the dict yields its string keys and the name lookup on a string
has no get attribute. -/
theorem get_table_dict_shape_counterexample :
    (serializeTable sample_table).name = "sample_table"
    ∧ (serializeTable sample_table).schema_name = "public"
    ∧ get_table_lookup
        (SchemasValue.dictShape [serializeTable sample_table] []).toPy
        "sample_table" "public" =
        GetTableOutcome.pyError PyErr.attributeError
    ∧ (get_table_lookup
        (SchemasValue.dictShape [serializeTable sample_table] []).toPy
        "sample_table" "public").isNotFound = false := by
  exact ⟨rfl, rfl, rfl, rfl⟩

/-- C10 amended: for every document whose schemas field is stored in the
canonical dict shape, the single-table lookup fails for every requested
table and schema name with AttributeError (surfaced by the generic handler
as a 500 error), never finding a table and never reaching the notFound
rejection, because it iterates the dict as if it were a list of schema
objects and so reads the name attribute of the string key tables. -/
theorem get_table_dict_shape_attribute_error (tables : List STable)
    (rels : List Rel) (tname sname : String) :
    get_table_lookup (SchemasValue.dictShape tables rels).toPy tname sname =
      GetTableOutcome.pyError PyErr.attributeError := rfl

/-- C6 counterexample: a project whose latest row references a document id
absent from the document store; get_latest_version returns a success result
with a null dictionary rather than reporting any error, refuting the claim
that a missing document is reported as a fatal consistency error. -/
theorem get_latest_missing_doc_counterexample :
    orphanRecord.is_latest = true
    ∧ lookupDoc orphanState.docs orphanRecord.mongo_id = Option.none
    ∧ get_latest_version orphanState =
        GetLatestResult.ok orphanRecord Option.none := ⟨rfl, rfl, rfl⟩

/-- C6 amended: whenever the row the latest-version query returns references
a document id with no document in the store, get_latest_version returns a
success result carrying that row and a null dictionary; the missing
document is silently omitted, not reported as an error. -/
theorem get_latest_missing_doc_succeeds (st : ProjState)
    (row : VersionRecord)
    (h1 : st.records.find? (fun r => r.is_latest) = some row)
    (h2 : lookupDoc st.docs row.mongo_id = Option.none) :
    get_latest_version st = GetLatestResult.ok row Option.none := by
  unfold get_latest_version
  rw [h1]
  show GetLatestResult.ok row (lookupDoc st.docs row.mongo_id) =
    GetLatestResult.ok row Option.none
  rw [h2]

/-- Witness for the C6 amended theorem at the orphaned state. -/
theorem get_latest_missing_doc_succeeds_witness :
    get_latest_version orphanState =
      GetLatestResult.ok orphanRecord Option.none :=
  get_latest_missing_doc_succeeds orphanState orphanRecord rfl rfl

/-- C1: forking from a base version copies its relationships and its erd
into the new document, but not its schemas: the source binds the base
schemas to a local that is never read, so the new document receives the
synthesized default schema instead, while the base document itself is left
unchanged in the store.  This evaluates create_version at the failing
input. -/
theorem create_version_base_drops_schemas :
    ∃ st2 rec doc,
      create_version forkBaseState "p1" forkReq "m2" "row2" =
        Except.ok (st2, rec, doc)
      ∧ doc.relationships = forkBaseDoc.relationships
      ∧ doc.erd = forkBaseDoc.erd
      ∧ doc.schemas ≠ forkBaseDoc.schemas
      ∧ doc.schemas = SchemasValue.dictShape [serializeTable sample_table] []
      ∧ lookupDoc st2.docs "m1" = some forkBaseDoc := by
  refine ⟨_, _, _, rfl, rfl, rfl, ?_, rfl, rfl⟩
  decide

lemma version_lt_nextVersionOf (l : List VersionRecord) (r : VersionRecord)
    (hr : r ∈ l) : r.version < nextVersionOf l := by
  unfold nextVersionOf
  rw [if_neg]
  · have := le_listMaxNat (l.map (fun x => x.version)) r.version
      (List.mem_map_of_mem _ hr)
    omega
  · intro hemp
    exact (List.ne_nil_of_mem hr) (List.isEmpty_iff.mp hemp)

lemma countP_bne_add (l : List VersionRecord) (v : Nat) :
    l.countP (fun r => r.version != v) +
      l.countP (fun r => r.version == v) = l.length := by
  induction l with
  | nil => rfl
  | cons a t ih =>
    rw [List.countP_cons, List.countP_cons, List.length_cons]
    cases h : a.version == v with
    | false =>
      have h2 : (a.version != v) = true := by simp [bne, h]
      rw [h2, if_pos rfl, if_neg (show (false = true) → False by decide)]
      omega
    | true =>
      have h2 : (a.version != v) = false := by simp [bne, h]
      rw [h2, if_pos rfl, if_neg (show (false = true) → False by decide)]
      omega

/-- C3: create_version assigns the new version the number one past the
greatest existing version number of the project, defaulting to 1 when the
project has no versions; consequently every row keeps a smaller number than
the inserted one and the numbers stay pairwise distinct. -/
theorem create_version_next_number (st : ProjState) (pid : String)
    (req : CreateVersionRequest) (mid rid : String) (st2 : ProjState)
    (rec : VersionRecord) (doc : Doc)
    (h : create_version st pid req mid rid = Except.ok (st2, rec, doc)) :
    rec.version = nextVersionOf st.records
    ∧ (st.records = [] → rec.version = 1)
    ∧ (st.records ≠ [] →
        rec.version = listMaxNat (st.records.map (fun r => r.version)) + 1)
    ∧ (∀ r ∈ st.records, r.version < rec.version)
    ∧ (VersionsNodup st.records → VersionsNodup st2.records) := by
  obtain ⟨hrec, hrecords, _⟩ := create_version_ok_inv _ _ _ _ _ _ _ _ h
  have hv : rec.version = nextVersionOf st.records := by rw [hrec]
  refine ⟨hv, ?_, ?_, ?_, ?_⟩
  · intro hemp
    rw [hv]
    unfold nextVersionOf
    rw [if_pos (by rw [List.isEmpty_iff]; exact hemp)]
  · intro hne
    rw [hv]
    unfold nextVersionOf
    rw [if_neg (by rw [List.isEmpty_iff]; exact hne)]
  · intro r hr
    rw [hv]
    exact version_lt_nextVersionOf st.records r hr
  · intro hn
    unfold VersionsNodup at hn ⊢
    rw [hrecords, List.map_append]
    have hmm : (st.records.map
          (fun r => { r with is_latest := false })).map
          (fun r => r.version) = st.records.map (fun r => r.version) := by
      rw [List.map_map]
      rfl
    rw [hmm, List.nodup_append]
    refine ⟨hn, List.nodup_singleton _, ?_⟩
    intro a ha hb
    simp only [List.map_cons, List.map_nil, List.mem_singleton] at hb
    obtain ⟨r, hr, hrv⟩ := List.mem_map.mp ha
    have hlt : r.version < rec.version := by
      rw [hv]
      exact version_lt_nextVersionOf st.records r hr
    rw [← hrv] at hb
    omega

/-- C2: for every project, exactly one row carries is_latest between
operations: a successful create flips every prior row to false and appends
the one new row with is_latest true, so exactly one row is latest
afterwards whatever held before; a successful delete preserves the
exactly-one invariant; and the relational update of update_version leaves
the is_latest column of every row unchanged, so no other version operation
sets is_latest. -/
theorem is_latest_state_machine :
    (∀ (st : ProjState) (pid : String) (req : CreateVersionRequest)
        (mid rid : String) (st2 : ProjState) (rec : VersionRecord) (doc : Doc),
      create_version st pid req mid rid = Except.ok (st2, rec, doc) →
        rec.is_latest = true ∧ countLatest st2.records = 1 ∧
        st2.records =
          st.records.map (fun r => { r with is_latest := false }) ++ [rec])
    ∧ (∀ (st : ProjState) (v : Nat) (st2 : ProjState),
        countLatest st.records = 1 → VersionsNodup st.records →
        delete_version st v = Except.ok st2 → countLatest st2.records = 1)
    ∧ (∀ (records : List VersionRecord) (v : Nat)
        (p : UpdateVersionRequest) (recs2 : List VersionRecord),
        update_version_records records v p = Except.ok recs2 →
          recs2.map (fun r => r.is_latest) =
            records.map (fun r => r.is_latest)) := by
  refine ⟨?_, ?_, ?_⟩
  · intro st pid req mid rid st2 rec doc h
    obtain ⟨hrec, hrecords, _⟩ := create_version_ok_inv _ _ _ _ _ _ _ _ h
    refine ⟨by rw [hrec], ?_, hrecords⟩
    rw [hrecords]
    unfold countLatest
    rw [List.countP_append]
    have hz : (st.records.map
        (fun r => { r with is_latest := false })).countP
        (fun r => r.is_latest) = 0 := by
      rw [List.countP_eq_zero]
      intro a ha
      obtain ⟨r, _, hrfl⟩ := List.mem_map.mp ha
      rw [← hrfl]
      simp
    rw [hz, List.countP_singleton, hrec]
    simp
  · intro st v st2 hc hn h
    obtain ⟨hlen, vdel, hfind, hrecords⟩ := delete_version_ok_inv st v st2 h
    cases hl : vdel.is_latest with
    | true =>
      have hne := remaining_ne_nil st.records v hn hlen
      have hempty : (remainingAfter st.records v).isEmpty = false := by
        cases he : (remainingAfter st.records v).isEmpty with
        | false => rfl
        | true => exact absurd (List.isEmpty_iff.mp he) hne
      rw [hl, if_pos rfl, hempty,
        if_neg (show (false = true) → False by decide)] at hrecords
      rw [remainingAfter_map_setLatestOn] at hrecords
      rw [hrecords]
      refine countLatest_map_setLatestOn _ _
        (remaining_not_latest st.records v vdel hc hfind hl)
        (remaining_nodup st.records v hn)
        (listMaxNat_mem _ ?_)
      intro hmap
      exact hne (List.map_eq_nil.mp hmap)
    | false =>
      rw [hl, if_neg (show (false = true) → False by decide)] at hrecords
      rw [hrecords]
      unfold countLatest
      rw [List.countP_eq_length_filter,
        remainingAfter_filter_latest st.records v vdel hc hn hfind hl,
        ← List.countP_eq_length_filter]
      exact hc
  · intro records v p recs2 h
    unfold update_version_records at h
    split at h
    · cases h
    · next row heq =>
      split at h
      · injection h with h
        rw [← h, List.map_map]
        have hfun : ((fun r => r.is_latest) ∘ fun r =>
            if r.id == row.id then
              { r with
                name := if strTruthy p.name then p.name.getD r.name else r.name,
                description :=
                  if strTruthy p.description then p.description
                  else r.description }
            else r) = fun (r : VersionRecord) => r.is_latest := by
          funext r
          simp only [Function.comp_apply]
          split <;> rfl
        rw [hfun]
      · injection h with h
        rw [← h]

lemma length_remainingAfter (l : List VersionRecord) (v : Nat)
    (hn : VersionsNodup l) (hv : ∃ r ∈ l, r.version = v) :
    (remainingAfter l v).length + 1 = l.length := by
  unfold remainingAfter
  rw [← List.countP_eq_length_filter]
  have hc : l.countP (fun r => r.version == v) = 1 := by
    obtain ⟨r, hr, hrv⟩ := hv
    have h2 : l.countP (fun r => r.version == v) =
        (l.map (fun r => r.version)).count v := by
      rw [List.count_eq_countP, List.countP_map]
      rfl
    rw [h2]
    refine List.count_eq_one_of_mem hn ?_
    rw [← hrv]
    exact List.mem_map_of_mem _ hr
  have := countP_bne_add l v
  omega

/-- C5: delete_version rejects with ValidationError whenever the project has
exactly one version row, whatever version number is requested; and every
successful delete removes exactly one row, so a project that has versions
keeps at least one. -/
theorem delete_version_only_version_rejected :
    (∀ (st : ProjState) (v : Nat), st.records.length = 1 →
      delete_version st v = Except.error Err.validationError)
    ∧ (∀ (st : ProjState) (v : Nat) (st2 : ProjState),
        VersionsNodup st.records → delete_version st v = Except.ok st2 →
        st2.records.length + 1 = st.records.length ∧ st2.records ≠ []) := by
  constructor
  · intro st v hlen
    obtain ⟨a, ha⟩ := List.length_eq_one.mp hlen
    unfold delete_version
    rw [ha]
    rfl
  · intro st v st2 hn h
    obtain ⟨hlen, vdel, hfind, hrecords⟩ := delete_version_ok_inv st v st2 h
    obtain ⟨hvmem, hvv⟩ := find?_version_eq hfind
    have hv : ∃ r ∈ st.records, r.version = v := ⟨vdel, hvmem, hvv⟩
    have hlen2 : st2.records.length + 1 = st.records.length := by
      cases hb : vdel.is_latest with
      | false =>
        rw [hb, if_neg (show (false = true) → False by decide)] at hrecords
        rw [hrecords]
        exact length_remainingAfter st.records v hn hv
      | true =>
        rw [hb, if_pos rfl] at hrecords
        cases he : (remainingAfter st.records v).isEmpty with
        | true =>
          rw [he, if_pos rfl] at hrecords
          rw [hrecords]
          exact length_remainingAfter st.records v hn hv
        | false =>
          rw [he, if_neg (show (false = true) → False by decide)] at hrecords
          rw [hrecords, remainingAfter_map_setLatestOn, List.length_map]
          exact length_remainingAfter st.records v hn hv
    refine ⟨hlen2, ?_⟩
    intro hnil
    rw [hnil] at hlen2
    simp only [List.length_nil] at hlen2
    omega

/-- C4: when delete_version removes the row holding is_latest, the row with
the numerically greatest remaining version number becomes the one latest
row (the promoted number is an actual remaining version, and a surviving
row is latest exactly when it carries that number); when the deleted row
was not the latest, the latest rows are exactly the same rows as before. -/
theorem delete_version_promotion (st : ProjState) (v : Nat)
    (st2 : ProjState) (vdel : VersionRecord)
    (hc : countLatest st.records = 1) (hn : VersionsNodup st.records)
    (hfind : st.records.find? (fun r => r.version == v) = some vdel)
    (h : delete_version st v = Except.ok st2) :
    (vdel.is_latest = true →
      (listMaxNat ((remainingAfter st.records v).map (fun r => r.version)) ∈
          (remainingAfter st.records v).map (fun r => r.version)
       ∧ ∀ r ∈ st2.records,
           (r.is_latest = true ↔
             r.version =
               listMaxNat
                 ((remainingAfter st.records v).map (fun r => r.version)))))
    ∧ (vdel.is_latest = false →
        st2.records.filter (fun r => r.is_latest) =
          st.records.filter (fun r => r.is_latest)) := by
  obtain ⟨hlen, vdel2, hfind2, hrecords⟩ := delete_version_ok_inv st v st2 h
  rw [hfind] at hfind2
  injection hfind2 with hv2
  subst hv2
  constructor
  · intro hl
    have hne := remaining_ne_nil st.records v hn hlen
    have hmapne :
        (remainingAfter st.records v).map (fun r => r.version) ≠ [] :=
      fun hmap => hne (List.map_eq_nil.mp hmap)
    have hempty : (remainingAfter st.records v).isEmpty = false := by
      cases he : (remainingAfter st.records v).isEmpty with
      | false => rfl
      | true => exact absurd (List.isEmpty_iff.mp he) hne
    rw [hl, if_pos rfl, hempty,
      if_neg (show (false = true) → False by decide)] at hrecords
    rw [remainingAfter_map_setLatestOn] at hrecords
    refine ⟨listMaxNat_mem _ hmapne, ?_⟩
    rw [hrecords]
    exact promoted_mem_latest_iff _ _
      (remaining_not_latest st.records v vdel hc hfind hl)
  · intro hl
    rw [hl, if_neg (show (false = true) → False by decide)] at hrecords
    rw [hrecords]
    exact remainingAfter_filter_latest st.records v vdel hc hn hfind hl

lemma countP_pk_iso (cols : List SColumn)
    (hiso : ∀ col ∈ cols, col.isPK = (col.key == "PK")) :
    cols.countP (fun col => col.key == "PK" || col.isPK) =
      cols.countP (fun col => col.key == "PK") := by
  apply List.countP_congr
  intro a ha
  rw [hiso a ha, Bool.or_self]

/-- C8: delete_column rejects with ValidationError when the named column is
the last remaining column of the scanned table, and when it is the only
primary-key column of that table (under the stored-shape invariant that the
isPK flag agrees with the key field, the reject condition is exactly that
the column has key PK and exactly one column has key PK); in every other
case it removes exactly that column, leaving the other columns of the
table, the other tables, and the schemas relationships list unchanged. -/
theorem delete_column_guards (doc : Doc) (tables : List STable)
    (rels : List Rel) (pre post : List STable) (t : STable)
    (cpre cpost : List SColumn) (c : SColumn) (tname sname cname : String)
    (hs : doc.schemas = SchemasValue.dictShape tables rels)
    (hsplit1 : splitFirst
        (fun tb => tb.name == tname && tb.schema_name == sname) tables =
        some (pre, t, post))
    (hsplit2 : splitFirst (fun col => col.name == cname) t.columns =
        some (cpre, c, cpost))
    (hiso : ∀ col ∈ t.columns, col.isPK = (col.key == "PK")) :
    (t.columns.length = 1 →
      delete_column doc tname sname cname = Except.error Err.validationError)
    ∧ (t.columns.length ≠ 1 → c.key = "PK" →
        t.columns.countP (fun col => col.key == "PK") = 1 →
        delete_column doc tname sname cname = Except.error Err.validationError)
    ∧ (t.columns.length ≠ 1 →
        ¬(c.key = "PK" ∧
          t.columns.countP (fun col => col.key == "PK") = 1) →
        delete_column doc tname sname cname =
          Except.ok
            { doc with
              schemas := SchemasValue.dictShape
                (pre ++ ({ t with columns := cpre ++ cpost } :: post)) rels,
              relationships := doc.relationships.filter (fun rel =>
                !((rel.source_table == tname &&
                    rel.source_column == cname) ||
                  (rel.target_table == tname &&
                    rel.target_column == cname))) }) := by
  have hcmem : c ∈ t.columns := by
    obtain ⟨hteq, _⟩ := splitFirst_eq hsplit2
    rw [hteq]
    exact List.mem_append_right _ (List.mem_cons_self _ _)
  have hcnt := countP_pk_iso t.columns hiso
  refine ⟨?_, ?_, ?_⟩
  · intro h1
    simp only [delete_column, hs, hsplit1, hsplit2, h1]
    rfl
  · intro h1 hkey hcnt1
    have hb1 : (t.columns.length == 1) = false := by simp [h1]
    have hb2 : ((c.key == "PK" || c.isPK) &&
        (t.columns.countP
          (fun col => col.key == "PK" || col.isPK) == 1)) = true := by
      rw [hcnt, hcnt1, hkey]
      simp
    simp only [delete_column, hs, hsplit1, hsplit2, hb1, hb2]
    simp
  · intro h1 hno
    have hb1 : (t.columns.length == 1) = false := by simp [h1]
    have hb2 : ((c.key == "PK" || c.isPK) &&
        (t.columns.countP
          (fun col => col.key == "PK" || col.isPK) == 1)) = false := by
      rw [hcnt, hiso c hcmem, Bool.or_self]
      by_cases hk : c.key = "PK"
      · have hc1 : t.columns.countP (fun col => col.key == "PK") ≠ 1 :=
          fun hcc => hno ⟨hk, hcc⟩
        have hb3 : (t.columns.countP
            (fun col => col.key == "PK") == 1) = false := by simp [hc1]
        rw [hb3, Bool.and_false]
      · have hb3 : (c.key == "PK") = false := by simp [hk]
        rw [hb3, Bool.false_and]
    simp only [delete_column, hs, hsplit1, hsplit2, hb1, hb2]
    simp

/-- C9: delete_table removes exactly the relationships whose source_table or
target_table equals the deleted table name, regardless of schema (the
predicate never reads a schema), and delete_column removes exactly the
relationships whose table and column pair matches the deleted column on the
source side or the target side; each surviving list is the filter of the
original, so no other relationship is removed. -/
theorem cascade_relationship_pruning :
    (∀ (doc : Doc) (tname sname : String) (doc2 : Doc),
      delete_table doc tname sname = Except.ok doc2 →
        doc2.relationships = doc.relationships.filter (fun rel =>
          rel.source_table != tname && rel.target_table != tname)
        ∧ ∀ rel, rel ∈ doc2.relationships ↔
            (rel ∈ doc.relationships ∧ rel.source_table ≠ tname ∧
              rel.target_table ≠ tname))
    ∧ (∀ (doc : Doc) (tname sname cname : String) (doc2 : Doc),
      delete_column doc tname sname cname = Except.ok doc2 →
        doc2.relationships = doc.relationships.filter (fun rel =>
          !((rel.source_table == tname && rel.source_column == cname) ||
            (rel.target_table == tname && rel.target_column == cname)))
        ∧ ∀ rel, rel ∈ doc2.relationships ↔
            (rel ∈ doc.relationships ∧
              ¬((rel.source_table = tname ∧ rel.source_column = cname) ∨
                (rel.target_table = tname ∧ rel.target_column = cname)))) := by
  constructor
  · intro doc tname sname doc2 h
    unfold delete_table at h
    split at h
    · cases h
    · split at h
      · cases h
      · injection h with h
        have hrel : doc2.relationships = doc.relationships.filter (fun rel =>
            rel.source_table != tname && rel.target_table != tname) := by
          rw [← h]
        refine ⟨hrel, ?_⟩
        intro rel
        rw [hrel, List.mem_filter]
        simp [bne]
  · intro doc tname sname cname doc2 h
    unfold delete_column at h
    split at h
    · cases h
    · split at h
      · cases h
      · split at h
        · cases h
        · split at h
          · cases h
          · split at h
            · cases h
            · injection h with h
              have hrel : doc2.relationships =
                  doc.relationships.filter (fun rel =>
                    !((rel.source_table == tname &&
                        rel.source_column == cname) ||
                      (rel.target_table == tname &&
                        rel.target_column == cname))) := by
                rw [← h]
              refine ⟨hrel, ?_⟩
              intro rel
              rw [hrel, List.mem_filter]
              simp [not_or]
              intro hmem
              tauto

/-- Witness for the C2 theorem on the demo project: the create establishes
exactly one latest row, the delete of the latest preserves it, and the
rename leaves the is_latest column untouched. -/
theorem is_latest_state_machine_witness :
    (demoCreateRec.is_latest = true
      ∧ countLatest demoCreateState.records = 1
      ∧ demoCreateState.records =
          demoState.records.map (fun r => { r with is_latest := false }) ++
            [demoCreateRec])
    ∧ countLatest demoDeleteState.records = 1
    ∧ demoUpdateRecs.map (fun r => r.is_latest) =
        demoState.records.map (fun r => r.is_latest) :=
  ⟨is_latest_state_machine.1 demoState "p1" demoReq "m4" "row4"
      demoCreateState demoCreateRec demoCreateDoc rfl,
   is_latest_state_machine.2.1 demoState 2 demoDeleteState (by decide)
      (by decide) rfl,
   is_latest_state_machine.2.2 demoState.records 1 demoPatch demoUpdateRecs
      rfl⟩

/-- Witness for the C3 theorem on the demo project: the new row receives
number 4, one past the greatest existing number 3, and the numbers stay
pairwise distinct. -/
theorem create_version_next_number_witness :
    demoCreateRec.version = nextVersionOf demoState.records
    ∧ demoCreateRec.version =
        listMaxNat (demoState.records.map (fun r => r.version)) + 1
    ∧ VersionsNodup demoCreateState.records := by
  have h := create_version_next_number demoState "p1" demoReq "m4" "row4"
    demoCreateState demoCreateRec demoCreateDoc rfl
  exact ⟨h.1, h.2.2.1 (by decide), h.2.2.2.2 (by decide)⟩

/-- Witness for the C4 theorem on the demo project: deleting latest version
2 promotes the greatest remaining number 3, which is a remaining version,
and the surviving row carrying it is latest. -/
theorem delete_version_promotion_witness :
    (listMaxNat ((remainingAfter demoState.records 2).map
        (fun r => r.version)) ∈
      (remainingAfter demoState.records 2).map (fun r => r.version))
    ∧ ((setLatestOn 3 (demoRecord "c" 3 "m3" false)).is_latest = true ↔
        (setLatestOn 3 (demoRecord "c" 3 "m3" false)).version =
          listMaxNat ((remainingAfter demoState.records 2).map
            (fun r => r.version))) := by
  have h := delete_version_promotion demoState 2 demoDeleteState
    (demoRecord "b" 2 "m2" true) (by decide) (by decide) rfl rfl
  exact ⟨(h.1 rfl).1,
    (h.1 rfl).2 (setLatestOn 3 (demoRecord "c" 3 "m3" false)) (by decide)⟩

/-- Witness for the C5 theorem: deleting the single version is rejected with
ValidationError, and the successful demo delete removes exactly one row,
leaving a nonempty project. -/
theorem delete_version_only_version_rejected_witness :
    delete_version soloState 1 = Except.error Err.validationError
    ∧ (demoDeleteState.records.length + 1 = demoState.records.length
        ∧ demoDeleteState.records ≠ []) :=
  ⟨delete_version_only_version_rejected.1 soloState 1 rfl,
   delete_version_only_version_rejected.2 demoState 2 demoDeleteState
     (by decide) rfl⟩

/-- Witness for the C8 theorem on the demo document: deleting the nullable
name column succeeds, removing exactly it, while deleting the id column,
the only primary key, is rejected with ValidationError. -/
theorem delete_column_guards_witness :
    delete_column demoDoc "sample_table" "public" "name" =
      Except.ok
        { demoDoc with
          schemas := SchemasValue.dictShape
            ([] ++ ({ serializeTable sample_table with
                columns := [serializeColumn sample_id_column] ++
                  [serializeColumn sample_created_at_column] } :: [])) [],
          relationships := demoDoc.relationships.filter (fun rel =>
            !((rel.source_table == "sample_table" &&
                rel.source_column == "name") ||
              (rel.target_table == "sample_table" &&
                rel.target_column == "name"))) }
    ∧ delete_column demoDoc "sample_table" "public" "id" =
        Except.error Err.validationError := by
  have h1 := delete_column_guards demoDoc [serializeTable sample_table] []
    [] [] (serializeTable sample_table)
    [serializeColumn sample_id_column]
    [serializeColumn sample_created_at_column]
    (serializeColumn sample_name_column) "sample_table" "public" "name"
    rfl rfl rfl (by decide)
  have h2 := delete_column_guards demoDoc [serializeTable sample_table] []
    [] [] (serializeTable sample_table) []
    [serializeColumn sample_name_column,
      serializeColumn sample_created_at_column]
    (serializeColumn sample_id_column) "sample_table" "public" "id"
    rfl rfl rfl (by decide)
  exact ⟨h1.2.2 (by decide) (by decide),
    h2.2.1 (by decide) rfl (by decide)⟩

/-- Witness for the C9 theorem on the demo document: deleting the sample
table prunes both relationships touching it and keeps the third, and
deleting the name column prunes exactly the relationship on that column. -/
theorem cascade_relationship_pruning_witness :
    demoDeleteTableDoc.relationships =
      demoDoc.relationships.filter (fun rel =>
        rel.source_table != "sample_table" &&
          rel.target_table != "sample_table")
    ∧ demoDeleteColumnDoc.relationships =
        demoDoc.relationships.filter (fun rel =>
          !((rel.source_table == "sample_table" &&
              rel.source_column == "name") ||
            (rel.target_table == "sample_table" &&
              rel.target_column == "name"))) :=
  ⟨(cascade_relationship_pruning.1 demoDoc "sample_table" "public"
      demoDeleteTableDoc rfl).1,
   (cascade_relationship_pruning.2 demoDoc "sample_table" "public" "name"
      demoDeleteColumnDoc rfl).1⟩

end FuckDB
